import Mathlib

/-!
Verification of the mediasoup worker slice: RTP packet codec
(`RtpPacket::Parse` / `RtpPacket::Serialize`), the RTCP BYE codec
(`ByePacket::Parse` / `ByePacket::Serialize`), the `UnixStreamSocket`
channel I/O state machine, and the `Room` routing bipartite map.

Buffers of bytes are modelled as `List Nat` (a byte is a `Nat`; the C
code reads `uint8_t` values, so every concrete input uses values below
256, but none of the definitions needs that bound).  Machine subtraction
on `size_t` is modelled explicitly where the source relies on wraparound.
-/

/-! ## Byte utilities (`Utils::Byte`)

Modelled from the spec: `Utils.h` is not among the sources; section 4.A
specifies pure endian-safe big-endian reads of 1/2/4-byte fields at
(buffer, offset). -/

/-- Modelled from the spec: `Utils::Byte::Get1Byte(data, i)` reads the byte at
index `i`. Out-of-range reads (which in C would be reads of unowned memory)
return 0; no theorem below depends on that value. -/
def get1 (data : List Nat) (i : Nat) : Nat :=
  data.getD i 0

/-- Modelled from the spec: `Utils::Byte::Get2Bytes` reads a 16-bit big-endian
(network byte order) value, as `ntohs` does on the wire bytes. -/
def get2BE (data : List Nat) (i : Nat) : Nat :=
  256 * get1 data i + get1 data (i + 1)

/-- Modelled from the spec: `Utils::Byte::Get4Bytes` reads a 32-bit big-endian
value. -/
def get4BE (data : List Nat) (i : Nat) : Nat :=
  256 * (256 * (256 * get1 data i + get1 data (i + 1)) + get1 data (i + 2)) + get1 data (i + 3)

/-- `size_t` subtraction: `a - b` on 64-bit unsigned integers, which wraps
modulo `2^64`.  Both arguments are assumed below `2^64` at every use site. -/
def sub64 (a b : Nat) : Nat :=
  (a + 2 ^ 64 - b) % 2 ^ 64

/-! ## RTP packet codec (`RTC::RtpPacket`)

The fixed RTP header is 12 bytes.  Byte 0 holds, from the high bits down:
version (2 bits), padding flag (1 bit), extension flag (1 bit), CSRC count
(4 bits) — the bitfield layout of `RtpPacket::Header`. -/

/-- CSRC count: low 4 bits of byte 0 (`header->csrc_count`). -/
def rtpCC (b : List Nat) : Nat :=
  get1 b 0 % 16

/-- Extension flag: bit 4 of byte 0 (`header->extension`). -/
def rtpHasExt (b : List Nat) : Bool :=
  (get1 b 0 / 16) % 2 == 1

/-- Padding flag: bit 5 of byte 0 (`header->padding`). -/
def rtpHasPad (b : List Nat) : Bool :=
  (get1 b 0 / 32) % 2 == 1

/-- Size in bytes of the extension block (4-byte extension header plus the
announced value, whose 16-bit length field counts 32-bit words), when the
extension flag is set; 0 otherwise. -/
def rtpExtTotal (b : List Nat) : Nat :=
  if rtpHasExt b then 4 + get2BE b (12 + 4 * rtpCC b + 2) * 4 else 0

/-- Offset of the payload region: header, CSRC list and extension block. -/
def rtpPos3 (b : List Nat) : Nat :=
  12 + 4 * rtpCC b + rtpExtTotal b

/-- Size of the region after header, CSRC list and extension (payload plus
optional padding); `payloadLength` before padding is subtracted. -/
def rtpTail (b : List Nat) : Nat :=
  b.length - rtpPos3 b

/-- The padding length the packet announces: its last byte, when the padding
flag is set (`payloadPadding` in the source); 0 otherwise. -/
def rtpPadLen (b : List Nat) : Nat :=
  if rtpHasPad b then get1 b (b.length - 1) else 0

/-- Modelled from the spec: `RtpPacket::IsRtp` (declared in `RtpPacket.h`,
not among the sources) accepts only buffers of length at least 12 whose
version field `buf[0] >> 6` equals 2. -/
def RtpPacket.IsRtp (data : List Nat) : Bool :=
  12 ≤ data.length && get1 data 0 / 64 == 2

/-- The parsed view produced by `RtpPacket::Parse`: the constructor arguments
`header`, `extensionHeader`, `payload`, `payloadLength`, `payloadPadding`,
with each interior pointer kept as the byte slice it points at.  `csrcList`
is set by the constructor exactly when `header->csrc_count` is nonzero;
`payload` is the null pointer exactly when the payload length is 0. -/
structure RtpPacket where
  header : List Nat
  csrcList : Option (List Nat)
  extensionHeader : Option (List Nat)
  payload : Option (List Nat)
  payloadLength : Nat
  payloadPadding : Nat
deriving DecidableEq, Repr

/-- The arguments `Parse` hands to the `RtpPacket` constructor on success:
the header slice, the CSRC slice when `csrc_count` is nonzero, the extension
block slice when the extension flag is set, the payload slice (null when
empty), the payload length after padding subtraction, and the padding. -/
def rtpParsedPacket (b : List Nat) : RtpPacket :=
  { header := b.take 12
    csrcList := if rtpCC b ≠ 0 then some ((b.drop 12).take (4 * rtpCC b)) else none
    extensionHeader :=
      if rtpHasExt b then some ((b.drop (12 + 4 * rtpCC b)).take (rtpExtTotal b)) else none
    payload :=
      if rtpTail b - rtpPadLen b = 0 then none
      else some ((b.drop (rtpPos3 b)).take (rtpTail b - rtpPadLen b))
    payloadLength := rtpTail b - rtpPadLen b
    payloadPadding := rtpPadLen b }

/-- `RtpPacket::Parse(data, len)`: the validation sequence of the source —
`IsRtp`, CSRC list bound, extension header bound, extension value bound,
then the padding checks (nonempty tail, nonzero last byte, padding not
larger than the tail), returning the packet view or `nullptr` (`none`). -/
def RtpPacket.Parse (data : List Nat) : Option RtpPacket :=
  if ¬ RtpPacket.IsRtp data then none
  else if rtpCC data ≠ 0 ∧ data.length < 12 + 4 * rtpCC data then none
  else if rtpHasExt data ∧ data.length < 12 + 4 * rtpCC data + 4 then none
  else if rtpHasExt data ∧ data.length < rtpPos3 data then none
  else if rtpHasPad data ∧ rtpTail data = 0 then none
  else if rtpHasPad data ∧ get1 data (data.length - 1) = 0 then none
  else if rtpHasPad data ∧ rtpTail data < rtpPadLen data then none
  else some (rtpParsedPacket data)

/-- `RtpPacket::Serialize()`: lays out header, CSRC list (when the `csrcList`
pointer is set, `csrc_count * 4` bytes of it), extension block (4 bytes plus
the value length the extension header itself announces), payload (when the
`payload` pointer is set, `payloadLength` bytes), then the padding region.
The buffer comes from `new uint8_t[length]`, so the padding bytes before the
last are left uninitialized: they keep the allocator's byte `fill`.  Only the
final byte of the padding region is written, with the padding length. -/
def RtpPacket.SerializeWith (fill : Nat) (p : RtpPacket) : List Nat :=
  let cc := get1 p.header 0 % 16
  let csrcBytes := match p.csrcList with
    | some l => l.take (4 * cc)
    | none => []
  let extBytes := match p.extensionHeader with
    | some l => l.take (4 + get2BE l 2 * 4)
    | none => []
  let payloadBytes := match p.payload with
    | some l => l.take p.payloadLength
    | none => []
  let padBytes :=
    if p.payloadPadding = 0 then []
    else List.replicate (p.payloadPadding - 1) fill ++ [p.payloadPadding]
  p.header.take 12 ++ csrcBytes ++ extBytes ++ payloadBytes ++ padBytes

/-- `RtpPacket::Serialize()` with the uninitialized allocator bytes taken to
be 0 (one concrete run of the nondeterministic `SerializeWith`). -/
def RtpPacket.Serialize (p : RtpPacket) : List Nat :=
  RtpPacket.SerializeWith 0 p

def rtpScenario1Input : List Nat :=
  [0x80, 0x60, 0x00, 0x01, 0x00, 0x00, 0x00, 0x64, 0x12, 0x34, 0x56, 0x78, 0xDE, 0xAD, 0xBE, 0xEF]

def rtpScenario1Packet : RtpPacket :=
  { header := [0x80, 0x60, 0x00, 0x01, 0x00, 0x00, 0x00, 0x64, 0x12, 0x34, 0x56, 0x78]
    csrcList := none
    extensionHeader := none
    payload := some [0xDE, 0xAD, 0xBE, 0xEF]
    payloadLength := 4
    payloadPadding := 0 }

def rtpPaddedInput : List Nat :=
  [0xA0, 0x60, 0x00, 0x01, 0x00, 0x00, 0x00, 0x64, 0x12, 0x34, 0x56, 0x78, 0xAA, 0x01, 0x02, 0x03]

def rtpPadRejectInput : List Nat :=
  [0xA0, 0x60, 0x00, 0x01, 0x00, 0x00, 0x00, 0x64, 0x12, 0x34, 0x56, 0x78]

structure ByePacket where
  ssrcs : List Nat
  reason : List Nat
deriving DecidableEq, Repr

/-- The SSRC loop of `ByePacket::Parse`: `while ((count--) && (len - offset > 0))`.
`count` is a `uint8_t`, so the post-decrement of 0 wraps to 255; the loop body
rejects (`none`) when fewer than 4 bytes remain, otherwise appends the next
big-endian SSRC.  Returns the value of `count` after the loop, the final
offset and the collected SSRCs. -/
def byeLoop (data : List Nat) (len : Nat) : Nat → Nat → List Nat → Option (Nat × Nat × List Nat)
  | 0, offset, ssrcs => some (255, offset, ssrcs)
  | count + 1, offset, ssrcs =>
    if sub64 len offset = 0 then some (count, offset, ssrcs)
    else if 4 > sub64 len offset then none
    else byeLoop data len count (offset + 4) (ssrcs ++ [get4BE data offset])

/-- `ByePacket::Parse(data, len)`.  The common header's 5-bit item count is the
low 5 bits of byte 0; `offset` starts at `sizeof(Packet::CommonHeader)` = 4.
After the loop the source tests `if (count == 0)` and only then reads the
1-byte reason length and, when `1 + length <= len - offset` (`size_t`
arithmetic), stores the reason — starting at `data + offset`, i.e. at the
length byte itself.  In every other case the packet keeps its default empty
reason. -/
def ByePacket.Parse (data : List Nat) : Option ByePacket :=
  match byeLoop data data.length (get1 data 0 % 32) 4 [] with
  | none => none
  | some (count, offset, ssrcs) =>
    if count = 0 then
      if 1 + get1 data offset ≤ sub64 data.length offset then
        some { ssrcs := ssrcs, reason := (data.drop offset).take (get1 data offset) }
      else
        some { ssrcs := ssrcs, reason := [] }
    else
      some { ssrcs := ssrcs, reason := [] }

def byeFailingInput : List Nat :=
  [0x81, 0xCB, 0x00, 0x02, 0x00, 0x00, 0x11, 0x11, 0x03, 0x62, 0x79, 0x65]

def write1 (buf : Nat → Nat) (i v : Nat) : Nat → Nat :=
  fun j => if j = i then v else buf j

/-- `std::memcpy(dst + i, &ssrc, 4)` of a host `uint32_t` (x86, little-endian):
the four bytes of `v`, least significant first. -/
def write4LE (buf : Nat → Nat) (i v : Nat) : Nat → Nat :=
  write1 (write1 (write1 (write1 buf i (v % 256)) (i + 1) (v / 256 % 256)) (i + 2)
    (v / 65536 % 256)) (i + 3) (v / 16777216 % 256)

/-- The padding loop `for (i = 0; i < padding; i++) data[offset+i] = 0`. -/
def writeZeros (buf : Nat → Nat) (start : Nat) : Nat → (Nat → Nat)
  | 0 => buf
  | n + 1 => write1 (writeZeros buf start n) (start + n) 0

/-- `(-offset) & 3` on `size_t`: `(2^64 - offset) mod 4 = (4 - offset mod 4) mod 4`,
the distance up to the next multiple of 4. -/
def padTo4 (offset : Nat) : Nat :=
  (4 - offset % 4) % 4

/-- Modelled from the spec: `Packet::Serialize` (the base class, not among the
sources) writes the 4-byte RTCP common header (2 bits version = 2, 1 bit
padding, 5 bits item count, 8 bits packet type, 16 bits big-endian
length-minus-one in 32-bit words) into the buffer and returns its size,
`sizeof(CommonHeader)` = 4. -/
def serializeCommonHeader (count pt lengthWords : Nat) (buf : Nat → Nat) : (Nat → Nat) × Nat :=
  (write1 (write1 (write1 (write1 buf 0 (128 + count % 32)) 1 (pt % 256)) 2
    (lengthWords / 256 % 256)) 3 (lengthWords % 256), 4)

/-- Size of the serialized BYE before 4-byte alignment: common header, one
32-bit word per SSRC and, when a reason is present, its 1-byte length prefix
plus the reason bytes. -/
def byeUnpadded (p : ByePacket) : Nat :=
  4 + 4 * p.ssrcs.length + (if p.reason = [] then 0 else 1 + p.reason.length)

/-- `ByePacket::Serialize(data)`: base-class common header, then the SSRC
loop (the source's `memcpy(data, &ssrc, ...)` writes each SSRC at offset 0 —
not at `data + offset` — while `offset` still advances), then the reason
length byte (the reason bytes themselves are never copied, though `offset`
skips over them), then `(-offset) & 3` zero bytes of padding.  Returns the
final buffer and `offset + padding`. -/
def ByePacket.Serialize (p : ByePacket) (buf : Nat → Nat) : (Nat → Nat) × Nat :=
  let start := serializeCommonHeader p.ssrcs.length 203
    ((byeUnpadded p + padTo4 (byeUnpadded p)) / 4 - 1) buf
  let afterSsrcs := p.ssrcs.foldl (fun st ssrc => (write4LE st.1 0 ssrc, st.2 + 4)) start
  let afterReason :=
    if p.reason ≠ [] then
      (write1 afterSsrcs.1 afterSsrcs.2 (p.reason.length % 256),
        afterSsrcs.2 + 1 + p.reason.length)
    else afterSsrcs
  (writeZeros afterReason.1 afterReason.2 (padTo4 afterReason.2),
    afterReason.2 + padTo4 afterReason.2)

/-! libuv status codes (negated errno on Unix). -/

def UV_EOF : Int := -4095
def UV_ECONNRESET : Int := -104
def UV_EPIPE : Int := -32
def UV_ENOTCONN : Int := -107
def UV_EAGAIN : Int := -11
def UV_ENOSYS : Int := -38

/-- The observable state of a `UnixStreamSocket`.  `bufferAllocated` models
the `buffer` pointer being non-null; `closedCallbacks` records each
invocation of the owner callback `userOnUnixStreamSocketClosed` with its
`is_closed_by_peer` argument, in order. -/
structure UnixStreamSocket where
  bufferSize : Nat
  bufferAllocated : Bool := false
  bufferDataLen : Nat := 0
  isClosing : Bool := false
  isClosedByPeer : Bool := false
  hasError : Bool := false
  usedShutdown : Bool := false
  closedCallbacks : List Bool := []
deriving DecidableEq, Repr

/-- `UnixStreamSocket::onUvClosed()`: invoked by the `uv_close` callback;
delivers `userOnUnixStreamSocketClosed(this->isClosedByPeer)` to the owner. -/
def UnixStreamSocket.onUvClosed (s : UnixStreamSocket) : UnixStreamSocket :=
  { s with closedCallbacks := s.closedCallbacks ++ [s.isClosedByPeer] }

/-- `UnixStreamSocket::Close()`.  A second call is a no-op (`isClosing`
guard).  Without a recorded error and with the peer's side still open it
shuts down gracefully via `uv_shutdown` (recorded in `usedShutdown`), whose
completion callback `onUvShutdown` calls `uv_close`; otherwise it calls
`uv_close` directly.  The asynchronous `uv_shutdown`/`uv_close` completions
are collapsed here: after `isClosing` is set, `uv_read_stop` has stopped
read callbacks and every other entry point (`Write`, `Close`,
`onUvWriteError`) returns immediately, so no observable state change can
interleave before `onUvClosed` runs. -/
def UnixStreamSocket.Close (s : UnixStreamSocket) : UnixStreamSocket :=
  if s.isClosing then s
  else
    let s1 := { s with isClosing := true }
    if s1.hasError = false ∧ s1.isClosedByPeer = false then
      UnixStreamSocket.onUvClosed { s1 with usedShutdown := true }
    else
      UnixStreamSocket.onUvClosed s1

/-- `UnixStreamSocket::onUvRead(nread, buf)`: 0 is ignored; positive `nread`
extends `bufferDataLen` (and notifies the subclass); `UV_EOF`/`UV_ECONNRESET`
record `isClosedByPeer` and close; any other negative value records
`hasError` and closes. -/
def UnixStreamSocket.onUvRead (s : UnixStreamSocket) (nread : Int) : UnixStreamSocket :=
  if nread = 0 then s
  else if 0 < nread then { s with bufferDataLen := s.bufferDataLen + nread.toNat }
  else if nread = UV_EOF ∨ nread = UV_ECONNRESET then
    UnixStreamSocket.Close { s with isClosedByPeer := true }
  else
    UnixStreamSocket.Close { s with hasError := true }

/-- `UnixStreamSocket::onUvWriteError(error)`: ignored while closing;
`UV_EPIPE` and `UV_ENOTCONN` are only logged, every other error records
`hasError`; either way the socket is closed. -/
def UnixStreamSocket.onUvWriteError (s : UnixStreamSocket) (error : Int) : UnixStreamSocket :=
  if s.isClosing then s
  else if error = UV_EPIPE ∨ error = UV_ENOTCONN then
    UnixStreamSocket.Close s
  else
    UnixStreamSocket.Close { s with hasError := true }

/-- What a call to `UnixStreamSocket::Write(data, len)` did: nothing, a full
synchronous `uv_try_write`, an asynchronous `uv_write` of the bytes
`uv_try_write` did not take, or an error that closed the socket. -/
inductive WriteAction
  | noop
  | sentAll
  | queued (pending : List Nat)
  | closedOnError
deriving DecidableEq, Repr

/-- `UnixStreamSocket::Write(data, len)`.  `tryWriteResult` is what
`uv_try_write` returned.  Returns immediately when closing or when `len` is
0; on a full write, done; on `UV_EAGAIN`/`UV_ENOSYS`, everything is queued;
on another negative result the socket is closed; on a short write the
remaining bytes are copied into a `UvWriteData` and queued. -/
def UnixStreamSocket.Write (s : UnixStreamSocket) (data : List Nat) (tryWriteResult : Int) :
    UnixStreamSocket × WriteAction :=
  if s.isClosing then (s, WriteAction.noop)
  else if data.length = 0 then (s, WriteAction.noop)
  else if tryWriteResult = (data.length : Int) then (s, WriteAction.sentAll)
  else
    let written : Int :=
      if tryWriteResult = UV_EAGAIN ∨ tryWriteResult = UV_ENOSYS then 0 else tryWriteResult
    if written < 0 then (UnixStreamSocket.Close s, WriteAction.closedOnError)
    else (s, WriteAction.queued (data.drop written.toNat))

/-- `UnixStreamSocket::onUvReadAlloc(suggested_size, buf)`: allocates the
receive buffer on first use, then offers the space starting at
`buffer + bufferDataLen`, of size `bufferSize - bufferDataLen` when positive
and 0 otherwise.  Returns the new state, the offered offset and the offered
length. -/
def UnixStreamSocket.onUvReadAlloc (s : UnixStreamSocket) : UnixStreamSocket × Nat × Nat :=
  let s1 := if s.bufferAllocated then s else { s with bufferAllocated := true }
  (s1, s1.bufferDataLen,
    if s1.bufferDataLen < s1.bufferSize then s1.bufferSize - s1.bufferDataLen else 0)

/-- A socket as the `Channel::UnixStreamSocket` constructor builds it, with
the channel's buffer size (spec section 4.I: 262144 bytes). -/
def UnixStreamSocket.initial : UnixStreamSocket :=
  { bufferSize := 262144 }

/-- The externally triggered events a live socket can see: an owner `Close`
call, a read callback (`nread` is a byte count, 0, or a status code), and a
write-completion error.  Read events are only delivered while the socket is
not closing (`Close` calls `uv_read_stop` first). -/
inductive SockEvent
  | close
  | read (nread : Int)
  | writeError (error : Int)
deriving DecidableEq, Repr

/-- One event step of the socket state machine. -/
def UnixStreamSocket.step (s : UnixStreamSocket) : SockEvent → UnixStreamSocket
  | SockEvent.close => UnixStreamSocket.Close s
  | SockEvent.read n => if s.isClosing then s else UnixStreamSocket.onUvRead s n
  | SockEvent.writeError e => UnixStreamSocket.onUvWriteError s e

/-- Whether an event makes the socket start closing: an owner `Close`, a
read callback with a negative status (peer disconnect or read error), or any
write error. -/
def SockEvent.isCloseTrigger : SockEvent → Bool
  | SockEvent.close => true
  | SockEvent.read n => decide (n < 0)
  | SockEvent.writeError _ => true

/-- Whether an event is the peer disconnecting (`UV_EOF`/`UV_ECONNRESET`). -/
def SockEvent.isPeerDisconnect : SockEvent → Bool
  | SockEvent.read n => decide (n = UV_EOF ∨ n = UV_ECONNRESET)
  | _ => false

/-- Run a fresh socket over a sequence of events. -/
def runSocket (evs : List SockEvent) : UnixStreamSocket :=
  evs.foldl UnixStreamSocket.step UnixStreamSocket.initial

def closingSocket : UnixStreamSocket :=
  { bufferSize := 262144, isClosing := true }

/-- Association-list lookup, the model of `std::unordered_map::find`:
the value of the first pair whose key matches. -/
def alookup {β : Type} : List (Nat × β) → Nat → Option β
  | [], _ => none
  | q :: t, k => if q.1 = k then some q.2 else alookup t k

/-- The routing bipartite map of `RTC::Room` (`Room.h`): for each active
receiver the set of senders mirroring it, and for each sender its unique
receiver.  Sets and maps are modelled as association lists; `RoomInv` states
the `unordered_map` key-uniqueness together with the routing invariants. -/
structure RoomMaps where
  mapRtpReceiverRtpSenders : List (Nat × List Nat)
  mapRtpSenderRtpReceiver : List (Nat × Nat)
deriving DecidableEq, Repr

/-- Modelled from the spec: `Room::onPeerRtpSenderClosed` (`Room.cpp` is not
among the sources).  Section 4.H: remove the sender from its receiver's set
and from sender→receiver; idempotent — tolerate "already absent". -/
def RoomMaps.onPeerRtpSenderClosed (m : RoomMaps) (s : Nat) : RoomMaps :=
  match alookup m.mapRtpSenderRtpReceiver s with
  | some r =>
    { mapRtpReceiverRtpSenders :=
        m.mapRtpReceiverRtpSenders.map (fun q => if q.1 = r then (q.1, q.2.erase s) else q)
      mapRtpSenderRtpReceiver := m.mapRtpSenderRtpReceiver.filter (fun q => q.1 != s) }
  | none => m

/-- Modelled from the spec: `Room::onPeerRtpReceiverClosed`.  Section 4.H:
look up the receiver's set of senders, close each (which removes it from
sender→receiver), then remove the receiver's entry from receiver→senders. -/
def RoomMaps.onPeerRtpReceiverClosed (m : RoomMaps) (r : Nat) : RoomMaps :=
  let closed := ((alookup m.mapRtpReceiverRtpSenders r).getD []).foldl
    RoomMaps.onPeerRtpSenderClosed m
  { mapRtpReceiverRtpSenders := closed.mapRtpReceiverRtpSenders.filter (fun q => q.1 != r)
    mapRtpSenderRtpReceiver := closed.mapRtpSenderRtpReceiver }

/-- Modelled from the spec: `Room::onPeerRtpReceiverParameters`.  Section
4.H: each other peer produces a sender with a freshly allocated id; the new
senders are inserted into the receiver's set and into sender→receiver under
the same call. -/
def RoomMaps.onPeerRtpReceiverParameters (m : RoomMaps) (r : Nat) (newSenders : List Nat) :
    RoomMaps :=
  { mapRtpReceiverRtpSenders := (r, newSenders) :: m.mapRtpReceiverRtpSenders
    mapRtpSenderRtpReceiver :=
      newSenders.map (fun s => (s, r)) ++ m.mapRtpSenderRtpReceiver }

/-- Modelled from the spec: `Room::onPeerClosed`.  Section 4.G/4.H: close
the peer's receivers and senders, each closure updating the bipartite map as
above. -/
def RoomMaps.onPeerClosed (m : RoomMaps) (peerReceivers peerSenders : List Nat) : RoomMaps :=
  peerSenders.foldl RoomMaps.onPeerRtpSenderClosed
    (peerReceivers.foldl RoomMaps.onPeerRtpReceiverClosed m)

/-- The Room routing invariant (spec section 3): keys on both sides are
unique (`unordered_map`), each sender set is duplicate-free, every sender in
a receiver's set maps back to that receiver, and every mapped sender is in
its receiver's set. -/
def RoomInv (m : RoomMaps) : Prop :=
  (m.mapRtpReceiverRtpSenders.map Prod.fst).Nodup ∧
  (m.mapRtpSenderRtpReceiver.map Prod.fst).Nodup ∧
  (∀ q ∈ m.mapRtpReceiverRtpSenders, q.2.Nodup) ∧
  (∀ q ∈ m.mapRtpReceiverRtpSenders, ∀ s ∈ q.2,
    alookup m.mapRtpSenderRtpReceiver s = some q.1) ∧
  (∀ q ∈ m.mapRtpSenderRtpReceiver,
    q.1 ∈ (alookup m.mapRtpReceiverRtpSenders q.2).getD [])

def roomExample : RoomMaps :=
  { mapRtpReceiverRtpSenders := [(1, [10, 11]), (2, [12])]
    mapRtpSenderRtpReceiver := [(10, 1), (11, 1), (12, 2)] }

/-! ## Theorems -/

theorem get1_take {l : List Nat} {n i : Nat} (h : i < n) : get1 (l.take n) i = get1 l i := by
  simp [get1, List.getD_eq_getElem?_getD, List.getElem?_take, h]

theorem get1_drop (l : List Nat) (n i : Nat) : get1 (l.drop n) i = get1 l (n + i) := by
  simp [get1, List.getD_eq_getElem?_getD, List.getElem?_drop]

theorem isRtp_iff {b : List Nat} :
    RtpPacket.IsRtp b = true ↔ 12 ≤ b.length ∧ get1 b 0 / 64 = 2 := by
  simp [RtpPacket.IsRtp]

theorem extTotal_pos {b : List Nat} (hext : rtpHasExt b = true) :
    rtpExtTotal b = 4 + get2BE b (12 + 4 * rtpCC b + 2) * 4 := by
  simp [rtpExtTotal, hext]

theorem RtpPacket.parse_elim {b : List Nat} {pkt : RtpPacket}
    (h : RtpPacket.Parse b = some pkt) :
    RtpPacket.IsRtp b = true ∧ rtpPos3 b ≤ b.length ∧
      (rtpHasPad b = true → 0 < rtpTail b ∧ 0 < rtpPadLen b ∧ rtpPadLen b ≤ rtpTail b) ∧
      pkt = rtpParsedPacket b := by
  unfold RtpPacket.Parse at h
  split_ifs at h with h1 h2 h3 h4 h5 h6 h7
  have hlen : 12 ≤ b.length := (isRtp_iff.mp h1).1
  refine ⟨h1, ?_, ?_, (Option.some.inj h).symm⟩
  · by_cases hext : rtpHasExt b = true
    · have h4' : ¬ b.length < rtpPos3 b := fun hlt => h4 ⟨hext, hlt⟩
      omega
    · have het : rtpExtTotal b = 0 := by simp [rtpExtTotal, hext]
      by_cases hcc : rtpCC b = 0
      · simp [rtpPos3, hcc, het]
        omega
      · have h2' : ¬ b.length < 12 + 4 * rtpCC b := fun hlt => h2 ⟨hcc, hlt⟩
        simp only [rtpPos3, het]
        omega
  · intro hpad
    have hp : rtpPadLen b = get1 b (b.length - 1) := by simp [rtpPadLen, hpad]
    have t1 : ¬ rtpTail b = 0 := fun ht => h5 ⟨hpad, ht⟩
    have t2 : ¬ get1 b (b.length - 1) = 0 := fun hz => h6 ⟨hpad, hz⟩
    have t3 : ¬ rtpTail b < rtpPadLen b := fun hl => h7 ⟨hpad, hl⟩
    omega

theorem RtpPacket.parse_mk {b : List Nat}
    (hrtp : RtpPacket.IsRtp b = true)
    (hpos : rtpPos3 b ≤ b.length)
    (hpad : rtpHasPad b = true → 0 < rtpTail b ∧ 0 < rtpPadLen b ∧ rtpPadLen b ≤ rtpTail b) :
    RtpPacket.Parse b = some (rtpParsedPacket b) := by
  have hlen : 12 ≤ b.length := (isRtp_iff.mp hrtp).1
  have hcs : 12 + 4 * rtpCC b ≤ rtpPos3 b := by
    simp [rtpPos3]
  have hc2 : ¬ (rtpCC b ≠ 0 ∧ b.length < 12 + 4 * rtpCC b) := by
    rintro ⟨-, hlt⟩
    omega
  have hc3 : ¬ (rtpHasExt b = true ∧ b.length < 12 + 4 * rtpCC b + 4) := by
    rintro ⟨hext, hlt⟩
    have h4x : 12 + 4 * rtpCC b + 4 ≤ rtpPos3 b := by
      simp only [rtpPos3, extTotal_pos hext]
      omega
    omega
  have hc4 : ¬ (rtpHasExt b = true ∧ b.length < rtpPos3 b) := by
    rintro ⟨-, hlt⟩
    omega
  have hc5 : ¬ (rtpHasPad b = true ∧ rtpTail b = 0) := by
    rintro ⟨hpd, ht⟩
    have := hpad hpd
    omega
  have hc6 : ¬ (rtpHasPad b = true ∧ get1 b (b.length - 1) = 0) := by
    rintro ⟨hpd, hz⟩
    have h1 := hpad hpd
    have h2 : rtpPadLen b = get1 b (b.length - 1) := by simp [rtpPadLen, hpd]
    omega
  have hc7 : ¬ (rtpHasPad b = true ∧ rtpTail b < rtpPadLen b) := by
    rintro ⟨hpd, hl⟩
    have := hpad hpd
    omega
  unfold RtpPacket.Parse
  rw [if_neg (not_not_intro hrtp), if_neg hc2, if_neg hc3, if_neg hc4, if_neg hc5,
    if_neg hc6, if_neg hc7]

theorem RtpPacket.serialize_parsed {b : List Nat} (fill : Nat)
    (hrtp : RtpPacket.IsRtp b = true)
    (hpos : rtpPos3 b ≤ b.length)
    (hpd : rtpPadLen b ≤ rtpTail b) :
    RtpPacket.SerializeWith fill (rtpParsedPacket b) =
      b.take (b.length - rtpPadLen b) ++
        (if rtpPadLen b = 0 then []
         else List.replicate (rtpPadLen b - 1) fill ++ [rtpPadLen b]) := by
  have hlen : 12 ≤ b.length := (isRtp_iff.mp hrtp).1
  have hcc0 : get1 ((rtpParsedPacket b).header) 0 % 16 = rtpCC b := by
    simp only [rtpParsedPacket]
    rw [get1_take (by omega : (0:Nat) < 12)]
    rfl
  -- each serialized piece equals the corresponding slice of b
  have hcsrc : (match (rtpParsedPacket b).csrcList with
      | some l => l.take (4 * (get1 ((rtpParsedPacket b).header) 0 % 16))
      | none => []) = (b.drop 12).take (4 * rtpCC b) := by
    rw [hcc0]
    by_cases hcc : rtpCC b = 0
    · simp [rtpParsedPacket, hcc]
    · simp [rtpParsedPacket, hcc, List.take_take]
  have hext2 : (match (rtpParsedPacket b).extensionHeader with
      | some l => l.take (4 + get2BE l 2 * 4)
      | none => []) = (b.drop (12 + 4 * rtpCC b)).take (rtpExtTotal b) := by
    by_cases hext : rtpHasExt b = true
    · have hets := extTotal_pos hext
      have hg2 : get2BE ((b.drop (12 + 4 * rtpCC b)).take (rtpExtTotal b)) 2 =
          get2BE b (12 + 4 * rtpCC b + 2) := by
        unfold get2BE
        rw [get1_take (by omega), get1_take (by omega), get1_drop, get1_drop]
      simp only [rtpParsedPacket, hext, if_pos]
      rw [hg2, ← hets, List.take_take, min_self]
    · have het : rtpExtTotal b = 0 := by simp [rtpExtTotal, hext]
      simp [rtpParsedPacket, hext, het]
  have hpay : (match (rtpParsedPacket b).payload with
      | some l => l.take ((rtpParsedPacket b).payloadLength)
      | none => []) = (b.drop (rtpPos3 b)).take (rtpTail b - rtpPadLen b) := by
    by_cases hz : rtpTail b - rtpPadLen b = 0
    · simp [rtpParsedPacket, hz]
    · simp [rtpParsedPacket, hz, List.take_take]
  simp only [RtpPacket.SerializeWith]
  rw [hcsrc, hext2, hpay]
  have hh : (rtpParsedPacket b).header.take 12 = b.take 12 := by
    simp [rtpParsedPacket, List.take_take]
  rw [hh]
  have hpadeq : (rtpParsedPacket b).payloadPadding = rtpPadLen b := rfl
  rw [hpadeq]
  rw [show b.take 12 ++ (b.drop 12).take (4 * rtpCC b) ++
        (b.drop (12 + 4 * rtpCC b)).take (rtpExtTotal b) ++
        (b.drop (rtpPos3 b)).take (rtpTail b - rtpPadLen b) =
      b.take (b.length - rtpPadLen b) from ?_]
  · rw [← List.take_add, ← List.take_add]
    have h3 : (12 + 4 * rtpCC b) + rtpExtTotal b = rtpPos3 b := rfl
    rw [h3, ← List.take_add]
    congr 1
    simp only [rtpTail] at *
    omega

/-- Claim C1, counterexample: `serialize(parse(b)) == b` fails on an accepted
input with 3 padding bytes whose interior bytes are nonzero — `Serialize`
leaves the padding bytes before the last one uninitialized. -/
theorem c1_serialize_parse_cex :
    (RtpPacket.Parse rtpPaddedInput).map RtpPacket.Serialize ≠ some rtpPaddedInput := by
  decide

/-- Claim C1, amended: for every byte slice `b` that `RtpPacket::Parse`
accepts, `Serialize` on the unmutated packet produces a buffer of the same
length that is byte-equal to `b` at every position except possibly the
padding bytes before the final padding-length byte (which `Serialize` leaves
uninitialized, here the allocator byte `fill`); in particular
`serialize(parse(b)) == b` whenever the padding length is at most 1. -/
theorem c1_serialize_parse_round_trip (b : List Nat) (pkt : RtpPacket) (fill : Nat)
    (h : RtpPacket.Parse b = some pkt) :
    (RtpPacket.SerializeWith fill pkt).length = b.length ∧
    (∀ i, i < b.length - pkt.payloadPadding ∨ i = b.length - 1 →
      (RtpPacket.SerializeWith fill pkt).getD i 0 = b.getD i 0) ∧
    (pkt.payloadPadding ≤ 1 → RtpPacket.SerializeWith fill pkt = b) := by
  obtain ⟨hrtp, hpos, hpadc, rfl⟩ := RtpPacket.parse_elim h
  have hlen : 12 ≤ b.length := (isRtp_iff.mp hrtp).1
  have hple : rtpPadLen b ≤ rtpTail b := by
    by_cases hp : rtpHasPad b = true
    · exact (hpadc hp).2.2
    · simp [rtpPadLen, hp]
  have htl : rtpTail b ≤ b.length := Nat.sub_le _ _
  have hplen : rtpPadLen b ≤ b.length := le_trans hple htl
  have hpp : (rtpParsedPacket b).payloadPadding = rtpPadLen b := rfl
  have hlast : rtpPadLen b ≠ 0 → get1 b (b.length - 1) = rtpPadLen b := by
    intro hnz
    by_cases hp : rtpHasPad b = true
    · simp [rtpPadLen, hp]
    · exact absurd (by simp [rtpPadLen, hp]) hnz
  have hs := RtpPacket.serialize_parsed fill hrtp hpos hple
  rw [hpp, hs]
  have hltake : (b.take (b.length - rtpPadLen b)).length = b.length - rtpPadLen b := by
    simp [List.length_take]
  refine ⟨?_, ?_, ?_⟩
  · by_cases hp0 : rtpPadLen b = 0
    · simp [hp0]
    · simp only [hp0, if_neg, List.length_append, List.length_replicate, hltake,
        List.length_singleton, if_false]
      omega
  · intro i hi
    by_cases hp0 : rtpPadLen b = 0
    · simp only [hp0, if_pos, List.append_nil, Nat.sub_zero]
      have hib : i < b.length := by omega
      have : i < b.length := hib
      exact get1_take hib
    · rcases hi with hi | hi
      · rw [List.getD_append _ _ _ _ (by omega)]
        exact get1_take hi
      · subst hi
        rw [List.getD_append_right _ _ _ _ (by omega)]
        rw [if_neg hp0, hltake]
        rw [show b.length - 1 - (b.length - rtpPadLen b) = rtpPadLen b - 1 by omega]
        rw [List.getD_append_right _ _ _ _ (by simp [List.length_replicate])]
        simp only [List.length_replicate, Nat.sub_self]
        have := hlast hp0
        simp [get1] at this
        simp [this]
  · intro hp1
    by_cases hp0 : rtpPadLen b = 0
    · simp [hp0]
    · have hp1' : rtpPadLen b = 1 := by omega
      have hidx : b.length - 1 < b.length := by omega
      have hb : b[b.length - 1] = 1 := by
        have hx : get1 b (b.length - 1) = 1 := by rw [hlast hp0, hp1']
        rw [get1, List.getD_eq_getElem b 0 hidx] at hx
        exact hx
      have key : b.take (b.length - 1) ++ [b[b.length - 1]] = b := by
        rw [← List.concat_eq_append, List.take_concat_get b (b.length - 1) hidx,
          show b.length - 1 + 1 = b.length by omega, List.take_length]
      rw [hb] at key
      rw [hp1']
      show b.take (b.length - 1) ++ [1] = b
      exact key

/-- Claim C1 witness: the spec's literal scenario 1 input (no padding)
round-trips byte-exactly. -/
theorem c1_serialize_parse_round_trip_witness :
    RtpPacket.SerializeWith 0 rtpScenario1Packet = rtpScenario1Input :=
  (c1_serialize_parse_round_trip rtpScenario1Input rtpScenario1Packet 0 (by decide)).2.2
    (by decide)

/-- Claim C2: for every buffer with the padding flag set (and whose header,
CSRC list and extension pass their bounds checks), `RtpPacket::Parse`
rejects exactly when the region after header, CSRC list and extension is
empty, when the last byte is 0, or when the last byte exceeds that region's
size; otherwise it accepts with payload length = region size - padding. -/
theorem c2_padding_validation (b : List Nat)
    (hrtp : RtpPacket.IsRtp b = true)
    (hpad : rtpHasPad b = true)
    (hcsrc : 12 + 4 * rtpCC b ≤ b.length)
    (hext : rtpHasExt b = true → rtpPos3 b ≤ b.length) :
    (RtpPacket.Parse b = none ↔
      rtpTail b = 0 ∨ get1 b (b.length - 1) = 0 ∨ rtpTail b < get1 b (b.length - 1)) ∧
    ∀ pkt, RtpPacket.Parse b = some pkt →
      pkt.payloadLength = rtpTail b - get1 b (b.length - 1) := by
  have hpos : rtpPos3 b ≤ b.length := by
    by_cases hx : rtpHasExt b = true
    · exact hext hx
    · have h0 : rtpExtTotal b = 0 := by simp [rtpExtTotal, hx]
      simp only [rtpPos3, h0]
      omega
  have hpl : rtpPadLen b = get1 b (b.length - 1) := by simp [rtpPadLen, hpad]
  constructor
  · constructor
    · intro hnone
      by_contra hc
      push_neg at hc
      obtain ⟨h1, h2, h3⟩ := hc
      have hok := RtpPacket.parse_mk hrtp hpos (fun _ => by omega)
      rw [hok] at hnone
      exact Option.noConfusion hnone
    · intro hdisj
      cases hps : RtpPacket.Parse b with
      | none => rfl
      | some pkt =>
        obtain ⟨-, -, hpc, -⟩ := RtpPacket.parse_elim hps
        have := hpc hpad
        omega
  · intro pkt hps
    obtain ⟨-, -, -, rfl⟩ := RtpPacket.parse_elim hps
    show rtpTail b - rtpPadLen b = _
    rw [hpl]

/-- Claim C2 witness: the spec's literal scenario 2 — a 12-byte header with
the padding flag and no payload space — is rejected. -/
theorem c2_padding_validation_witness : RtpPacket.Parse rtpPadRejectInput = none :=
  (c2_padding_validation rtpPadRejectInput (by decide) (by decide) (by decide)
    (by decide)).1.mpr (Or.inl (by decide))

/-- Claim C8: for every input buffer that `RtpPacket::Parse` accepts,
12-byte header + 4 * csrc_count + (4 + extension value bytes when the
extension flag is set) + payload length + padding length equals the total
input length — the `MS_ASSERT` in `Parse` cannot fire on an accepted
packet. -/
theorem c8_parse_length_accounting (b : List Nat) (pkt : RtpPacket)
    (h : RtpPacket.Parse b = some pkt) :
    12 + 4 * rtpCC b + rtpExtTotal b + pkt.payloadLength + pkt.payloadPadding = b.length := by
  obtain ⟨hrtp, hpos, hpadc, rfl⟩ := RtpPacket.parse_elim h
  have hple : rtpPadLen b ≤ rtpTail b := by
    by_cases hp : rtpHasPad b = true
    · exact (hpadc hp).2.2
    · simp [rtpPadLen, hp]
  show 12 + 4 * rtpCC b + rtpExtTotal b + (rtpTail b - rtpPadLen b) + rtpPadLen b = b.length
  have hp3 : rtpPos3 b = 12 + 4 * rtpCC b + rtpExtTotal b := rfl
  simp only [rtpTail] at hple ⊢
  omega

/-- Claim C8 witness: the accounting equation evaluated on the spec's
scenario 1 input. -/
theorem c8_parse_length_accounting_witness :
    12 + 4 * rtpCC rtpScenario1Input + rtpExtTotal rtpScenario1Input +
      rtpScenario1Packet.payloadLength + rtpScenario1Packet.payloadPadding =
      rtpScenario1Input.length :=
  c8_parse_length_accounting rtpScenario1Input rtpScenario1Packet (by decide)

theorem byeLoop_zero_off {data : List Nat} {len : Nat} :
    ∀ {count offset ssrcs count2 offset2 ssrcs2},
      byeLoop data len count offset ssrcs = some (count2, offset2, ssrcs2) →
      count2 = 0 → sub64 len offset2 = 0 := by
  intro count
  induction count with
  | zero =>
    intro offset ssrcs count2 offset2 ssrcs2 h hz
    simp [byeLoop] at h
    omega
  | succ n ih =>
    intro offset ssrcs count2 offset2 ssrcs2 h hz
    rw [byeLoop] at h
    split_ifs at h with h1 h2
    · simp only [Option.some.injEq, Prod.mk.injEq] at h
      obtain ⟨rfl, rfl, -⟩ := h
      exact h1
    · exact ih h hz

theorem bye_parse_reason_empty (data : List Nat) (p : ByePacket)
    (h : ByePacket.Parse data = some p) : p.reason = [] := by
  unfold ByePacket.Parse at h
  cases hl : byeLoop data data.length (get1 data 0 % 32) 4 [] with
  | none => rw [hl] at h; exact Option.noConfusion h
  | some triple =>
    obtain ⟨count, offset, ssrcs⟩ := triple
    rw [hl] at h
    have h2 : (if count = 0 then
        (if 1 + get1 data offset ≤ sub64 data.length offset then
          some { ssrcs := ssrcs, reason := (data.drop offset).take (get1 data offset) }
         else some { ssrcs := ssrcs, reason := ([] : List Nat) })
      else some { ssrcs := ssrcs, reason := ([] : List Nat) }) = some p := h
    by_cases hc : count = 0
    · have hoff : sub64 data.length offset = 0 := byeLoop_zero_off hl hc
      rw [if_pos hc, if_neg (by omega)] at h2
      obtain rfl := Option.some.inj h2
      rfl
    · rw [if_neg hc] at h2
      obtain rfl := Option.some.inj h2
      rfl

theorem byeFold_snd (l : List Nat) :
    ∀ (b : Nat → Nat) (o : Nat),
      (l.foldl (fun st ssrc => (write4LE st.1 0 ssrc, st.2 + 4)) (b, o)).2 = o + 4 * l.length := by
  induction l with
  | nil => intro b o; simp
  | cons hd tl ih =>
    intro b o
    simp only [List.foldl_cons, List.length_cons]
    rw [ih]
    ring

theorem writeZeros_get {buf : Nat → Nat} {start : Nat} :
    ∀ {n i : Nat}, i < n → writeZeros buf start n (start + i) = 0 := by
  intro n
  induction n with
  | zero => intro i h; omega
  | succ k ih =>
    intro i h
    by_cases hik : i = k
    · simp [writeZeros, write1, hik]
    · have : i < k := by omega
      simp only [writeZeros, write1]
      rw [if_neg (by omega)]
      exact ih this

/-- Claim C7: for every `ByePacket`, `Serialize` appends zero pad bytes
after the SSRC and reason fields so that the returned size is 4-byte
aligned: the returned size equals the unpadded offset plus `(-offset) mod 4`,
and every appended pad byte in the output buffer is 0. -/
theorem c7_bye_serialize_aligned (p : ByePacket) (buf : Nat → Nat) :
    (p.Serialize buf).2 = byeUnpadded p + padTo4 (byeUnpadded p) ∧
    ((padTo4 (byeUnpadded p) : Int) = (-(byeUnpadded p : Int)) % 4) ∧
    ∀ i, i < padTo4 (byeUnpadded p) → (p.Serialize buf).1 (byeUnpadded p + i) = 0 := by
  have hoff : ∀ (b0 : Nat → Nat),
      ((if p.reason ≠ [] then
        (write1 (p.ssrcs.foldl (fun st ssrc => (write4LE st.1 0 ssrc, st.2 + 4)) (b0, 4)).1
          (p.ssrcs.foldl (fun st ssrc => (write4LE st.1 0 ssrc, st.2 + 4)) (b0, 4)).2
          (p.reason.length % 256),
          (p.ssrcs.foldl (fun st ssrc => (write4LE st.1 0 ssrc, st.2 + 4)) (b0, 4)).2 + 1 +
            p.reason.length)
       else (p.ssrcs.foldl (fun st ssrc => (write4LE st.1 0 ssrc, st.2 + 4)) (b0, 4)))).2 =
      byeUnpadded p := by
    intro b0
    by_cases hr : p.reason = []
    · simp only [hr, ne_eq, not_true_eq_false, if_false, byeFold_snd, byeUnpadded]
      simp [hr]
    · simp only [ne_eq, hr, not_false_eq_true, if_true, byeFold_snd, byeUnpadded]
      simp [hr]
      ring
  constructor
  · show _ = _
    simp only [ByePacket.Serialize, serializeCommonHeader]
    rw [hoff]
  constructor
  · unfold padTo4
    omega
  · intro i hi
    simp only [ByePacket.Serialize, serializeCommonHeader]
    rw [hoff]
    exact writeZeros_get hi

/-- Claim C3, failing input: a well-formed BYE datagram with one SSRC
(0x00001111) and the length-prefixed reason "bye" (62 79 65) parses to a
packet with the right SSRC but an EMPTY reason: after the SSRC loop the
post-decremented `count` is 255, never 0, so the reason branch is dead (the
only path reaching it has `offset == len`, where the bound check fails).
The claim says the reason string is returned. -/
theorem c3_bye_reason_dropped :
    ByePacket.Parse byeFailingInput = some { ssrcs := [0x1111], reason := [] } ∧
    [0x1111] = [get4BE byeFailingInput 4] ∧
    (byeFailingInput.drop 9).take 3 = [0x62, 0x79, 0x65] := by
  refine ⟨by decide, by decide, by decide⟩

theorem step_of_closing {s : UnixStreamSocket} (h : s.isClosing = true) (ev : SockEvent) :
    s.step ev = s := by
  cases ev with
  | close => simp [UnixStreamSocket.step, UnixStreamSocket.Close, h]
  | read n => simp [UnixStreamSocket.step, h]
  | writeError e => simp [UnixStreamSocket.step, UnixStreamSocket.onUvWriteError, h]

theorem foldl_of_closing {s : UnixStreamSocket} (h : s.isClosing = true) (evs : List SockEvent) :
    evs.foldl UnixStreamSocket.step s = s := by
  induction evs with
  | nil => rfl
  | cons ev tl ih => rw [List.foldl_cons, step_of_closing h, ih]

theorem trigger_step {s : UnixStreamSocket} (ev : SockEvent)
    (htr : ev.isCloseTrigger = true)
    (hc : s.isClosing = false) (he : s.hasError = false) (hp : s.isClosedByPeer = false)
    (hcb : s.closedCallbacks = []) :
    (s.step ev).isClosing = true ∧ (s.step ev).closedCallbacks = [ev.isPeerDisconnect] := by
  cases ev with
  | close =>
    simp [UnixStreamSocket.step, UnixStreamSocket.Close, UnixStreamSocket.onUvClosed,
      hc, he, hp, hcb, SockEvent.isPeerDisconnect]
  | read n =>
    have hneg : n < 0 := by simpa [SockEvent.isCloseTrigger] using htr
    have hn0 : ¬ n = 0 := by omega
    have hnp : ¬ 0 < n := by omega
    by_cases heof : n = UV_EOF ∨ n = UV_ECONNRESET
    · simp [UnixStreamSocket.step, UnixStreamSocket.onUvRead, UnixStreamSocket.Close,
        UnixStreamSocket.onUvClosed, hc, he, hp, hcb, SockEvent.isPeerDisconnect,
        heof, hn0, hnp]
    · simp [UnixStreamSocket.step, UnixStreamSocket.onUvRead, UnixStreamSocket.Close,
        UnixStreamSocket.onUvClosed, hc, he, hp, hcb, SockEvent.isPeerDisconnect,
        heof, hn0, hnp]
  | writeError e =>
    by_cases hee : e = UV_EPIPE ∨ e = UV_ENOTCONN
    · simp [UnixStreamSocket.step, UnixStreamSocket.onUvWriteError, UnixStreamSocket.Close,
        UnixStreamSocket.onUvClosed, hc, he, hp, hcb, SockEvent.isPeerDisconnect, hee]
    · simp [UnixStreamSocket.step, UnixStreamSocket.onUvWriteError, UnixStreamSocket.Close,
        UnixStreamSocket.onUvClosed, hc, he, hp, hcb, SockEvent.isPeerDisconnect, hee]

theorem nontrigger_step {s : UnixStreamSocket} (ev : SockEvent)
    (htr : ev.isCloseTrigger = false) :
    (s.step ev).isClosing = s.isClosing ∧ (s.step ev).hasError = s.hasError ∧
    (s.step ev).isClosedByPeer = s.isClosedByPeer ∧
    (s.step ev).closedCallbacks = s.closedCallbacks := by
  cases ev with
  | close => simp [SockEvent.isCloseTrigger] at htr
  | read n =>
    have hge : 0 ≤ n := by simpa [SockEvent.isCloseTrigger] using htr
    by_cases hc : s.isClosing = true
    · simp [UnixStreamSocket.step, hc]
    · by_cases h0 : n = 0
      · simp [UnixStreamSocket.step, UnixStreamSocket.onUvRead, hc, h0]
      · simp [UnixStreamSocket.step, UnixStreamSocket.onUvRead, hc, h0,
          (by omega : 0 < n)]
  | writeError e => simp [SockEvent.isCloseTrigger] at htr

theorem run_callbacks_aux (evs : List SockEvent) :
    ∀ (s : UnixStreamSocket), s.isClosing = false → s.hasError = false →
      s.isClosedByPeer = false → s.closedCallbacks = [] →
      (evs.foldl UnixStreamSocket.step s).closedCallbacks =
        (match evs.find? SockEvent.isCloseTrigger with
         | none => []
         | some ev => [ev.isPeerDisconnect]) := by
  induction evs with
  | nil => intro s _ _ _ hcb; simpa using hcb
  | cons ev tl ih =>
    intro s hc he hp hcb
    rw [List.foldl_cons]
    by_cases htr : ev.isCloseTrigger = true
    · have hst := trigger_step ev htr hc he hp hcb
      rw [foldl_of_closing hst.1, hst.2]
      simp [List.find?_cons, htr]
    · have hf : ev.isCloseTrigger = false := by simpa using htr
      obtain ⟨h1, h2, h3, h4⟩ := nontrigger_step (s := s) ev hf
      rw [ih (s.step ev) (by rw [h1]; exact hc) (by rw [h2]; exact he)
        (by rw [h3]; exact hp) (by rw [h4]; exact hcb)]
      simp [List.find?_cons, hf]

/-- Claim C6: over any sequence of `Close` calls, peer disconnects and I/O
errors, the owner callback `userOnUnixStreamSocketClosed` is invoked exactly
once — once the first close trigger occurs, never again — and its argument
is `true` exactly when that first trigger was the peer closing its side
(`UV_EOF`/`UV_ECONNRESET`). -/
theorem c6_closed_callback_once (evs : List SockEvent) :
    (runSocket evs).closedCallbacks =
      (match evs.find? SockEvent.isCloseTrigger with
       | none => []
       | some ev => [ev.isPeerDisconnect]) ∧
    (runSocket evs).closedCallbacks.length ≤ 1 := by
  have h := run_callbacks_aux evs UnixStreamSocket.initial rfl rfl rfl rfl
  refine ⟨h, ?_⟩
  rw [show runSocket evs = evs.foldl UnixStreamSocket.step UnixStreamSocket.initial from rfl] at *
  rw [h]
  cases evs.find? SockEvent.isCloseTrigger <;> simp

/-- Claim C4, counterexample: a write completing with `UV_EPIPE` on a fresh
socket does NOT set the error flag (`hasError` stays `false`), and the
subsequent `Close` takes — not skips — the graceful-shutdown path. -/
theorem c4_write_error_flag_cex :
    (UnixStreamSocket.initial.onUvWriteError UV_EPIPE).hasError = false ∧
    (UnixStreamSocket.initial.onUvWriteError UV_EPIPE).usedShutdown = true := by
  decide

/-- Claim C4, amended: on a write error the socket is always closed, but
`UV_EPIPE`/`UV_ENOTCONN` leave the error flag unchanged (every other error
records it); with no prior error and the peer side open, that `Close` goes
through the graceful shutdown path, and the closed callback fires. -/
theorem c4_write_error_closes (s : UnixStreamSocket) (e : Int) (h : s.isClosing = false) :
    ((e = UV_EPIPE ∨ e = UV_ENOTCONN) → (s.onUvWriteError e).hasError = s.hasError) ∧
    (¬ (e = UV_EPIPE ∨ e = UV_ENOTCONN) → (s.onUvWriteError e).hasError = true) ∧
    (s.onUvWriteError e).isClosing = true ∧
    (s.onUvWriteError e).closedCallbacks = s.closedCallbacks ++ [s.isClosedByPeer] ∧
    ((e = UV_EPIPE ∨ e = UV_ENOTCONN) ∧ s.hasError = false ∧ s.isClosedByPeer = false →
      (s.onUvWriteError e).usedShutdown = true) := by
  by_cases hee : e = UV_EPIPE ∨ e = UV_ENOTCONN
  · by_cases hhe : s.hasError = false ∧ s.isClosedByPeer = false
    · simp [UnixStreamSocket.onUvWriteError, UnixStreamSocket.Close,
        UnixStreamSocket.onUvClosed, h, hee, hhe.1, hhe.2]
    · simp only [UnixStreamSocket.onUvWriteError, UnixStreamSocket.Close,
        UnixStreamSocket.onUvClosed, h, hee, if_false, if_true, Bool.false_eq_true,
        if_neg hhe]
      simp [hee]
      intro h1 h2
      exact absurd ⟨h1, h2⟩ hhe
  · simp [UnixStreamSocket.onUvWriteError, UnixStreamSocket.Close,
      UnixStreamSocket.onUvClosed, h, hee]

/-- Claim C4 witness: `UV_EPIPE` on a fresh socket. -/
theorem c4_write_error_closes_witness :
    (UnixStreamSocket.initial.onUvWriteError UV_EPIPE).hasError =
        UnixStreamSocket.initial.hasError ∧
    (UnixStreamSocket.initial.onUvWriteError UV_EPIPE).isClosing = true ∧
    (UnixStreamSocket.initial.onUvWriteError UV_EPIPE).closedCallbacks =
      UnixStreamSocket.initial.closedCallbacks ++ [UnixStreamSocket.initial.isClosedByPeer] ∧
    (UnixStreamSocket.initial.onUvWriteError UV_EPIPE).usedShutdown = true := by
  have h := c4_write_error_closes UnixStreamSocket.initial UV_EPIPE rfl
  exact ⟨h.1 (Or.inl rfl), h.2.2.1, h.2.2.2.1, h.2.2.2.2 ⟨Or.inl rfl, rfl, rfl⟩⟩

/-- Claim C9: every `UnixStreamSocket::Write` made after `Close` has been
initiated (`isClosing`) or with `len == 0` returns immediately: no byte is
written or queued and no field of the socket state changes. -/
theorem c9_write_noop (s : UnixStreamSocket) (data : List Nat) (tryWriteResult : Int)
    (h : s.isClosing = true ∨ data.length = 0) :
    s.Write data tryWriteResult = (s, WriteAction.noop) := by
  rcases h with h | h
  · simp [UnixStreamSocket.Write, h]
  · simp [UnixStreamSocket.Write, h]

/-- Claim C9 witness: a write on a closing socket. -/
theorem c9_write_noop_witness :
    closingSocket.Write [1, 2, 3] 3 = (closingSocket, WriteAction.noop) :=
  c9_write_noop closingSocket [1, 2, 3] 3 (Or.inl rfl)

/-- Claim C10: `onUvReadAlloc` offers exactly the space starting at
`buffer + bufferDataLen` of length `bufferSize - bufferDataLen` when
`bufferDataLen < bufferSize` and length 0 when the buffer is full; the
buffer is allocated lazily on the first callback; and a read of at most the
offered length never moves `bufferDataLen` past `bufferSize`. -/
theorem c10_read_alloc (s : UnixStreamSocket) (h : s.bufferDataLen ≤ s.bufferSize) :
    (s.onUvReadAlloc).2.1 = s.bufferDataLen ∧
    (s.onUvReadAlloc).1.bufferAllocated = true ∧
    (s.bufferAllocated = true → (s.onUvReadAlloc).1 = s) ∧
    (s.bufferDataLen < s.bufferSize →
      (s.onUvReadAlloc).2.2 = s.bufferSize - s.bufferDataLen) ∧
    (s.bufferDataLen = s.bufferSize → (s.onUvReadAlloc).2.2 = 0) ∧
    (s.onUvReadAlloc).2.1 + (s.onUvReadAlloc).2.2 ≤ s.bufferSize ∧
    (∀ n : Nat, n ≤ (s.onUvReadAlloc).2.2 →
      ((s.onUvReadAlloc).1.onUvRead (Int.ofNat n)).bufferDataLen ≤ s.bufferSize) := by
  have halloc : (s.onUvReadAlloc).1.bufferDataLen = s.bufferDataLen ∧
      (s.onUvReadAlloc).1.bufferSize = s.bufferSize ∧
      (s.onUvReadAlloc).1.bufferAllocated = true ∧
      (s.onUvReadAlloc).2.1 = s.bufferDataLen := by
    by_cases hb : s.bufferAllocated = true
    · simp [UnixStreamSocket.onUvReadAlloc, hb]
    · simp [UnixStreamSocket.onUvReadAlloc, hb]
  have hlen : (s.onUvReadAlloc).2.2 =
      if s.bufferDataLen < s.bufferSize then s.bufferSize - s.bufferDataLen else 0 := by
    by_cases hb : s.bufferAllocated = true
    · simp [UnixStreamSocket.onUvReadAlloc, hb]
    · simp [UnixStreamSocket.onUvReadAlloc, hb]
  refine ⟨halloc.2.2.2, halloc.2.2.1, ?_, ?_, ?_, ?_, ?_⟩
  · intro hb
    simp [UnixStreamSocket.onUvReadAlloc, hb]
  · intro hlt
    rw [hlen, if_pos hlt]
  · intro heq
    rw [hlen, if_neg (by omega)]
  · rw [hlen, halloc.2.2.2]
    by_cases hlt : s.bufferDataLen < s.bufferSize
    · rw [if_pos hlt]; omega
    · rw [if_neg hlt]; omega
  · intro n hn
    by_cases h0 : n = 0
    · subst h0
      simp [UnixStreamSocket.onUvRead, halloc.1]
      omega
    · have hnpos : 0 < n := Nat.pos_of_ne_zero h0
      have hpos : (0 : Int) < Int.ofNat n := Int.ofNat_pos.mpr hnpos
      have hne : ¬ Int.ofNat n = 0 := by omega
      rw [show ((s.onUvReadAlloc).1.onUvRead (Int.ofNat n)) =
          { (s.onUvReadAlloc).1 with
            bufferDataLen := (s.onUvReadAlloc).1.bufferDataLen + n } from by
        unfold UnixStreamSocket.onUvRead
        rw [if_neg hne, if_pos hpos]
        rfl]
      simp only [halloc.1]
      rw [hlen] at hn
      by_cases hlt : s.bufferDataLen < s.bufferSize
      · rw [if_pos hlt] at hn; omega
      · rw [if_neg hlt] at hn; omega

/-- Claim C10 witness: the first allocation callback on a fresh socket. -/
theorem c10_read_alloc_witness :
    (UnixStreamSocket.initial.onUvReadAlloc).2.1 = 0 ∧
    (UnixStreamSocket.initial.onUvReadAlloc).2.2 = 262144 ∧
    (UnixStreamSocket.initial.onUvReadAlloc).1.bufferAllocated = true := by
  have h := c10_read_alloc UnixStreamSocket.initial (by decide)
  exact ⟨h.1, h.2.2.2.1 (by decide), h.2.1⟩

theorem alookup_eq_none {β : Type} {l : List (Nat × β)} {k : Nat} :
    alookup l k = none ↔ k ∉ l.map Prod.fst := by
  induction l with
  | nil => simp [alookup]
  | cons q t ih =>
    by_cases hq : q.1 = k
    · simp [alookup, hq]
    · simp [alookup, hq, ih, Ne.symm hq]

theorem alookup_mem {β : Type} {l : List (Nat × β)} {k : Nat} {v : β}
    (h : alookup l k = some v) : (k, v) ∈ l := by
  induction l with
  | nil => simp [alookup] at h
  | cons q t ih =>
    by_cases hq : q.1 = k
    · rw [alookup, if_pos hq] at h
      obtain rfl := Option.some.inj h
      exact List.mem_cons.mpr (Or.inl (by rw [← hq]))
    · rw [alookup, if_neg hq] at h
      exact List.mem_cons_of_mem _ (ih h)

theorem mem_alookup_isSome {β : Type} {l : List (Nat × β)} {k : Nat} {v : β}
    (h : (k, v) ∈ l) : ∃ v2, alookup l k = some v2 := by
  induction l with
  | nil => simp at h
  | cons q t ih =>
    by_cases hq : q.1 = k
    · exact ⟨q.2, by rw [alookup, if_pos hq]⟩
    · rcases List.mem_cons.mp h with h | h
      · exact absurd (congrArg Prod.fst h.symm) hq
      · rw [alookup, if_neg hq]
        exact ih h

theorem alookup_filter_ne {β : Type} {l : List (Nat × β)} {s k : Nat} (h : k ≠ s) :
    alookup (l.filter (fun q => q.1 != s)) k = alookup l k := by
  induction l with
  | nil => simp [alookup]
  | cons q t ih =>
    by_cases hq : q.1 = s
    · rw [List.filter_cons_of_neg (by simp [hq])]
      rw [alookup, if_neg (by omega), ih]
    · rw [List.filter_cons_of_pos (by simp [hq])]
      by_cases hk : q.1 = k
      · rw [alookup, if_pos hk, alookup, if_pos hk]
      · rw [alookup, if_neg hk, alookup, if_neg hk, ih]

theorem alookup_filter_self {β : Type} {l : List (Nat × β)} {s : Nat} :
    alookup (l.filter (fun q => q.1 != s)) s = none := by
  rw [alookup_eq_none]
  intro hmem
  obtain ⟨q, hq, hfst⟩ := List.mem_map.mp hmem
  have := List.mem_filter.mp hq
  simp [hfst] at this

theorem alookup_map_adjust {l : List (Nat × List Nat)} {r k s : Nat} :
    alookup (l.map (fun q => if q.1 = r then (q.1, q.2.erase s) else q)) k =
      if k = r then (alookup l k).map (fun v => v.erase s) else alookup l k := by
  induction l with
  | nil => by_cases hk : k = r <;> simp [alookup, hk]
  | cons q t ih =>
    by_cases hq : q.1 = r
    · by_cases hk : q.1 = k
      · have hkr : k = r := by omega
        simp [alookup, hq, hk, hkr]
      · simp only [List.map_cons, if_pos hq, alookup, hk, if_neg hk, if_false, ih]
    · by_cases hk : q.1 = k
      · have hkr : ¬ k = r := by omega
        simp [alookup, hq, hk, hkr]
      · simp only [List.map_cons, if_neg hq, alookup, if_neg hk, ih]

theorem adjust_keys {l : List (Nat × List Nat)} {r s : Nat} :
    (l.map (fun q => if q.1 = r then (q.1, q.2.erase s) else q)).map Prod.fst =
      l.map Prod.fst := by
  induction l with
  | nil => rfl
  | cons q t ih =>
    by_cases hq : q.1 = r <;> simp [hq, ih]

theorem alookup_append {β : Type} {l1 l2 : List (Nat × β)} {k : Nat} :
    alookup (l1 ++ l2) k =
      match alookup l1 k with
      | some v => some v
      | none => alookup l2 k := by
  induction l1 with
  | nil => simp [alookup]
  | cons q t ih =>
    by_cases hq : q.1 = k
    · simp [alookup, hq]
    · simp only [List.cons_append, alookup, if_neg hq, ih, List.append_eq]

theorem alookup_map_const {ss : List Nat} {r k : Nat} :
    alookup (ss.map (fun s => (s, r))) k = if k ∈ ss then some r else none := by
  induction ss with
  | nil => simp [alookup]
  | cons a t ih =>
    by_cases ha : a = k
    · simp [alookup, ha]
    · simp only [List.map_cons, alookup, if_neg ha, ih]
      by_cases hk : k ∈ t
      · simp [hk, ha, Ne.symm ha]
      · simp [hk, ha, Ne.symm ha]

theorem senderClosed_subset {m : RoomMaps} {s : Nat} {p : Nat × Nat}
    (h : p ∈ (m.onPeerRtpSenderClosed s).mapRtpSenderRtpReceiver) :
    p ∈ m.mapRtpSenderRtpReceiver := by
  unfold RoomMaps.onPeerRtpSenderClosed at h
  cases hl : alookup m.mapRtpSenderRtpReceiver s with
  | none => rw [hl] at h; exact h
  | some r =>
    rw [hl] at h
    exact (List.mem_filter.mp h).1

theorem senderClosed_inv {m : RoomMaps} (hm : RoomInv m) (s : Nat) :
    RoomInv (m.onPeerRtpSenderClosed s) := by
  obtain ⟨h1, h2, h3, h4, h5⟩ := hm
  unfold RoomMaps.onPeerRtpSenderClosed
  cases hl : alookup m.mapRtpSenderRtpReceiver s with
  | none => exact ⟨h1, h2, h3, h4, h5⟩
  | some r =>
    dsimp only
    refine ⟨?_, ?_, ?_, ?_, ?_⟩
    · dsimp only
      rw [adjust_keys]; exact h1
    · exact h2.sublist ((List.filter_sublist _).map Prod.fst)
    · intro q hq
      obtain ⟨q0, hq0, hq0e⟩ := List.mem_map.mp hq
      by_cases hr : q0.1 = r
      · rw [if_pos hr] at hq0e
        rw [← hq0e]
        exact (h3 q0 hq0).erase s
      · rw [if_neg hr] at hq0e
        rw [← hq0e]
        exact h3 q0 hq0
    · intro q hq s2 hs2
      obtain ⟨q0, hq0, hq0e⟩ := List.mem_map.mp hq
      by_cases hr : q0.1 = r
      · rw [if_pos hr] at hq0e
        rw [← hq0e] at hs2 ⊢
        simp only at hs2 ⊢
        have hnodup := h3 q0 hq0
        have hs2' : s2 ≠ s ∧ s2 ∈ q0.2 := (List.Nodup.mem_erase_iff hnodup).mp hs2
        rw [alookup_filter_ne hs2'.1]
        exact h4 q0 hq0 s2 hs2'.2
      · rw [if_neg hr] at hq0e
        rw [← hq0e] at hs2 ⊢
        have hold := h4 q0 hq0 s2 hs2
        have hne : s2 ≠ s := by
          intro heq
          rw [heq, hl] at hold
          exact hr (Option.some.inj hold).symm
        rw [alookup_filter_ne hne]
        exact hold
    · intro q hq
      have hq' := List.mem_filter.mp hq
      have hqm := hq'.1
      have hqs : q.1 ≠ s := by simpa using hq'.2
      have hold := h5 q hqm
      dsimp only
      rw [alookup_map_adjust]
      by_cases hqr : q.2 = r
      · rw [if_pos hqr]
        cases hal : alookup m.mapRtpReceiverRtpSenders q.2 with
        | none => rw [hal] at hold; simp at hold
        | some S0 =>
          rw [hal] at hold
          simp only [Option.getD_some] at hold
          show q.1 ∈ S0.erase s
          exact (List.mem_erase_of_ne hqs).mpr hold
      · rw [if_neg hqr]
        exact hold

theorem foldSenders_subset {S : List Nat} :
    ∀ {m : RoomMaps} {p : Nat × Nat},
      p ∈ (S.foldl RoomMaps.onPeerRtpSenderClosed m).mapRtpSenderRtpReceiver →
      p ∈ m.mapRtpSenderRtpReceiver := by
  induction S with
  | nil => intro m p h; exact h
  | cons a t ih =>
    intro m p h
    rw [List.foldl_cons] at h
    exact senderClosed_subset (ih h)

theorem foldSenders_inv {S : List Nat} :
    ∀ {m : RoomMaps}, RoomInv m → RoomInv (S.foldl RoomMaps.onPeerRtpSenderClosed m) := by
  induction S with
  | nil => intro m hm; exact hm
  | cons a t ih =>
    intro m hm
    rw [List.foldl_cons]
    exact ih (senderClosed_inv hm a)

theorem senderClosed_absent {m : RoomMaps} {s : Nat} {v : Nat} :
    (s, v) ∉ (m.onPeerRtpSenderClosed s).mapRtpSenderRtpReceiver := by
  unfold RoomMaps.onPeerRtpSenderClosed
  cases hl : alookup m.mapRtpSenderRtpReceiver s with
  | none =>
    intro hmem
    obtain ⟨v2, hv2⟩ := mem_alookup_isSome hmem
    rw [hl] at hv2
    exact Option.noConfusion hv2
  | some r =>
    intro hmem
    have := (List.mem_filter.mp hmem).2
    simp at this

theorem foldSenders_absent {S : List Nat} :
    ∀ {m : RoomMaps} {s v : Nat}, s ∈ S →
      (s, v) ∉ (S.foldl RoomMaps.onPeerRtpSenderClosed m).mapRtpSenderRtpReceiver := by
  induction S with
  | nil => intro m s v h; simp at h
  | cons a t ih =>
    intro m s v hs
    rw [List.foldl_cons]
    rcases List.mem_cons.mp hs with rfl | hs
    · by_cases ht : s ∈ t
      · exact ih ht
      · intro hmem
        exact senderClosed_absent (foldSenders_subset hmem)
    · exact ih hs

theorem receiverClosed_inv {m : RoomMaps} (hm : RoomInv m) (r : Nat) :
    RoomInv (m.onPeerRtpReceiverClosed r) := by
  have hclosed := foldSenders_inv
    (S := (alookup m.mapRtpReceiverRtpSenders r).getD []) hm
  obtain ⟨h1, h2, h3, h4, h5⟩ := hclosed
  unfold RoomMaps.onPeerRtpReceiverClosed
  refine ⟨?_, ?_, ?_, ?_, ?_⟩
  · dsimp only
    exact h1.sublist ((List.filter_sublist _).map Prod.fst)
  · exact h2
  · intro q hq
    exact h3 q (List.mem_filter.mp hq).1
  · intro q hq s2 hs2
    exact h4 q (List.mem_filter.mp hq).1 s2 hs2
  · intro q hq
    dsimp only at hq ⊢
    have hold := h5 q hq
    by_cases hqr : q.2 = r
    · exfalso
      have hqm : q ∈ m.mapRtpSenderRtpReceiver := foldSenders_subset hq
      have hS := (hm.2.2.2.2) q hqm
      rw [hqr] at hS
      exact foldSenders_absent
        (S := (alookup m.mapRtpReceiverRtpSenders r).getD []) (m := m) (v := q.2) hS hq
    · rw [alookup_filter_ne hqr]
      exact hold

theorem receiverParameters_inv {m : RoomMaps} (hm : RoomInv m) (r : Nat) (ss : List Nat)
    (hr : alookup m.mapRtpReceiverRtpSenders r = none)
    (hss : ss.Nodup)
    (hfresh : ∀ s ∈ ss, alookup m.mapRtpSenderRtpReceiver s = none) :
    RoomInv (m.onPeerRtpReceiverParameters r ss) := by
  obtain ⟨h1, h2, h3, h4, h5⟩ := hm
  have hrk : r ∉ m.mapRtpReceiverRtpSenders.map Prod.fst := alookup_eq_none.mp hr
  unfold RoomMaps.onPeerRtpReceiverParameters
  refine ⟨?_, ?_, ?_, ?_, ?_⟩
  · dsimp only
    rw [List.map_cons]
    exact List.Nodup.cons hrk h1
  · dsimp only
    rw [List.map_append, List.map_map]
    refine List.Nodup.append ?_ h2 ?_
    · have hcomp : (Prod.fst ∘ fun s : Nat => (s, r)) = (id : Nat → Nat) := rfl
      rw [hcomp, List.map_id]
      exact hss
    · intro a ha hb
      have ha' : a ∈ ss := by simpa using ha
      exact (alookup_eq_none.mp (hfresh a ha')) hb
  · intro q hq
    rcases List.mem_cons.mp hq with rfl | hq
    · exact hss
    · exact h3 q hq
  · intro q hq s2 hs2
    dsimp only
    rw [alookup_append]
    rcases List.mem_cons.mp hq with rfl | hq
    · rw [alookup_map_const, if_pos hs2]
    · have hs2ns : s2 ∉ ss := by
        intro hmem
        have := h4 q hq s2 hs2
        rw [hfresh s2 hmem] at this
        exact Option.noConfusion this
      rw [alookup_map_const, if_neg hs2ns]
      exact h4 q hq s2 hs2
  · intro q hq
    dsimp only at hq ⊢
    rcases List.mem_append.mp hq with hq | hq
    · obtain ⟨s2, hs2, rfl⟩ := List.mem_map.mp hq
      rw [alookup, if_pos rfl]
      simpa using hs2
    · have hold := h5 q hq
      have hqr : q.2 ≠ r := by
        intro heq
        rw [heq, hr] at hold
        simp at hold
      rw [alookup, if_neg (by omega)]
      exact hold

theorem foldReceivers_inv {R : List Nat} :
    ∀ {m : RoomMaps}, RoomInv m → RoomInv (R.foldl RoomMaps.onPeerRtpReceiverClosed m) := by
  induction R with
  | nil => intro m hm; exact hm
  | cons a t ih =>
    intro m hm
    rw [List.foldl_cons]
    exact ih (receiverClosed_inv hm a)

theorem peerClosed_inv {m : RoomMaps} (hm : RoomInv m) (rs ss : List Nat) :
    RoomInv (m.onPeerClosed rs ss) :=
  foldSenders_inv (foldReceivers_inv hm)

/-- Claim C5: in every room state satisfying the routing invariant the
bipartite map is symmetric — every sender in a receiver's set maps back to
that same receiver, every mapped sender is in its receiver's set, and a
sender is in at most one receiver's set — and every Room operation
(receiver added with fresh ids, receiver closed, sender closed, peer
closed) preserves the invariant. -/
theorem c5_bipartite_map (m : RoomMaps) (hm : RoomInv m) :
    (∀ q ∈ m.mapRtpReceiverRtpSenders, ∀ s ∈ q.2,
      alookup m.mapRtpSenderRtpReceiver s = some q.1) ∧
    (∀ q ∈ m.mapRtpSenderRtpReceiver,
      q.1 ∈ (alookup m.mapRtpReceiverRtpSenders q.2).getD []) ∧
    (∀ q1 ∈ m.mapRtpReceiverRtpSenders, ∀ q2 ∈ m.mapRtpReceiverRtpSenders, ∀ s,
      s ∈ q1.2 → s ∈ q2.2 → q1.1 = q2.1) ∧
    (∀ r ss, alookup m.mapRtpReceiverRtpSenders r = none → ss.Nodup →
      (∀ s ∈ ss, alookup m.mapRtpSenderRtpReceiver s = none) →
      RoomInv (m.onPeerRtpReceiverParameters r ss)) ∧
    (∀ r, RoomInv (m.onPeerRtpReceiverClosed r)) ∧
    (∀ s, RoomInv (m.onPeerRtpSenderClosed s)) ∧
    (∀ rs ss, RoomInv (m.onPeerClosed rs ss)) := by
  refine ⟨hm.2.2.2.1, hm.2.2.2.2, ?_, ?_, ?_, ?_, ?_⟩
  · intro q1 hq1 q2 hq2 s hs1 hs2
    have e1 := hm.2.2.2.1 q1 hq1 s hs1
    have e2 := hm.2.2.2.1 q2 hq2 s hs2
    rw [e1] at e2
    exact Option.some.inj e2
  · intro r ss hr hss hfresh
    exact receiverParameters_inv hm r ss hr hss hfresh
  · intro r
    exact receiverClosed_inv hm r
  · intro s
    exact senderClosed_inv hm s
  · intro rs ss
    exact peerClosed_inv hm rs ss

/-- Claim C5 witness: a concrete two-receiver room and three of the
operations. -/
theorem c5_bipartite_map_witness :
    RoomInv roomExample ∧
    RoomInv (roomExample.onPeerRtpReceiverClosed 1) ∧
    RoomInv (roomExample.onPeerRtpSenderClosed 12) ∧
    RoomInv (roomExample.onPeerClosed [2] [10, 11]) := by
  have hinv : RoomInv roomExample := by
    unfold RoomInv
    decide
  have h := c5_bipartite_map roomExample hinv
  exact ⟨hinv, h.2.2.2.2.1 1, h.2.2.2.2.2.1 12, h.2.2.2.2.2.2 [2] [10, 11]⟩
